import Mathlib

/-!
# Verification of the Haven VLM Connector batch-orchestration core

A shallow embedding, in Lean 4, of the orchestration core of
`haven_vlm_connector.py`: the batch coordinator (`tag_videos`), the job
executor (`__tag_video` / `__tag_video_with_timing`), the progress
aggregator (`progress_cb`), the concurrency gate (the `asyncio.Semaphore`
used by `__tag_video`), the settings optimizer (`__find_marker_settings`
and its wrapper `find_marker_settings`), and the mode dispatcher (`run`).

Machine floats of the source are modelled as rationals; Python dicts as
association lists with replace-in-place insertion; exceptions as `Except`
values that carry the media state reached at the point of failure (media
calls are remote and their effects persist when a later call raises).
-/

namespace HavenVLM

/-! ## Data model -/

/-- Modelled from the spec: `TimeFrame` lives in `haven_vlm_engine`,
which is imported by the connector but is not part of the sources at
hand.  The spec gives it as a closed time interval with a confidence:
fields `start`, `end` and a confidence (named `total_confidence` at the
connector's construction site).  `stop` stands for the source field
`end`, a reserved word in Lean. -/
structure TimeFrame where
  start : ℚ
  stop : ℚ
  total_confidence : ℚ
  deriving Repr, DecidableEq

/-- One scene marker as returned by the media collaborator: a primary
tag name, a start in seconds, and an optional explicit end
(`marker.get` with a default models the possibly missing key). -/
structure SceneMarker where
  primary_tag_name : String
  seconds : ℚ
  end_seconds : Option ℚ
  deriving Repr, DecidableEq

/-- The inference collaborator's structured output for one work item:
`video_tags` maps a category to the detected tag names, and
`tag_timespans` maps a tag name to its time spans. -/
structure VideoResult where
  video_tags : List (String × List String)
  tag_timespans : List (String × List TimeFrame)
  deriving Repr, DecidableEq

/-- `__tag_video` lines 287-289: union the detected tag names across all
result categories (a Python `set`, hence a `Finset`). -/
def detectedTags (res : VideoResult) : Finset String :=
  res.video_tags.foldl (fun acc ct => acc ∪ ct.2.toFinset) ∅

/-! ## Python dict as an association list

Insertion replaces the value in place when the key exists (Python dict
assignment keeps the original key position), otherwise appends. -/

def dictInsert {α : Type} (k : String) (v : α) :
    List (String × α) → List (String × α)
  | [] => [(k, v)]
  | (ko, vo) :: rest =>
      if ko = k then (k, v) :: rest else (ko, vo) :: dictInsert k v rest

def dictLookup {α : Type} (k : String) : List (String × α) → Option α
  | [] => none
  | (ko, vo) :: rest => if ko = k then some vo else dictLookup k rest

theorem dictLookup_dictInsert {α : Type} (k tag : String) (v : α)
    (l : List (String × α)) :
    dictLookup tag (dictInsert k v l) =
      if k = tag then some v else dictLookup tag l := by
  induction l with
  | nil =>
      by_cases h : k = tag <;> simp [dictInsert, dictLookup, h]
  | cons hd tl ih =>
      obtain ⟨ko, vo⟩ := hd
      by_cases hk : ko = k
      · subst hk
        by_cases h : ko = tag <;> simp [dictInsert, dictLookup, h]
      · by_cases h : ko = tag
        · subst h
          have : ¬ k = ko := fun hh => hk hh.symm
          simp [dictInsert, dictLookup, hk, this]
        · simp [dictInsert, dictLookup, hk, h, ih]

/-! ## Settings Optimizer (`__find_marker_settings`, lines 314-344) -/

/-- Lines 324-331: convert the scene's existing markers to the desired
timespan dict, `tag name ↦ TimeFrame(start=seconds,
end=end_seconds or seconds+1, total_confidence=1.0)`. -/
def buildDesiredTimespanData (markers : List SceneMarker) :
    List (String × TimeFrame) :=
  markers.foldl
    (fun acc m =>
      dictInsert m.primary_tag_name
        ⟨m.seconds, m.end_seconds.getD (m.seconds + 1), 1⟩ acc) []

/-- The single call `__find_marker_settings` makes to the inference
collaborator (lines 334-337): its two arguments. -/
structure OptimizeCall where
  existing_json : List (String × String)
  desired_timespan_data : List (String × TimeFrame)
  deriving Repr, DecidableEq

/-- Lines 333-341: build the desired data, call
`find_optimal_marker_settings_async` with `existing_json = ∅` (the
source passes a literal empty dict, comment "No existing JSON data"),
and surface the returned object unchanged.  The engine is an external
collaborator, taken as a parameter. -/
def findMarkerSettingsScene {α : Type} (engine : OptimizeCall → α)
    (markers : List SceneMarker) : OptimizeCall × α :=
  let call : OptimizeCall := ⟨[], buildDesiredTimespanData markers⟩
  (call, engine call)

/-! ## Dispatcher (`run`, lines 86-116) and the derive-settings wrapper
(`find_marker_settings`, lines 172-179) -/

/-- What one invocation of `run` did: which workflow ran, and the
response written (`output["output"]`). -/
structure DispatchRun where
  ranTagVideos : Bool
  ranFindMarkerSettings : Bool
  ranCollectIncorrectMarkers : Bool
  output : Option String
  deriving Repr, DecidableEq

/-- Lines 97-116 of `run`: the mode selector (absent key modelled as
`none`) picks a workflow; every branch, including the fall-through for
an unrecognized or absent mode, writes `output["output"] = "ok"`. -/
def runDispatch (mode : Option String) : DispatchRun :=
  if mode = some "tag_videos" then ⟨true, false, false, some "ok"⟩
  else if mode = some "find_marker_settings" then ⟨false, true, false, some "ok"⟩
  else if mode = some "collect_incorrect_markers" then
    ⟨false, false, true, some "ok"⟩
  else ⟨false, false, false, some "ok"⟩

/-- The observable outcome of `find_marker_settings` (lines 172-179):
how many optimization calls reached the collaborator, whether the
user-facing error was logged, and the surfaced settings. -/
structure FMSRun (α : Type) where
  optimizeCalls : Nat
  errorReported : Bool
  settings : Option α
  deriving Repr, DecidableEq

/-- Lines 172-179: require exactly one candidate scene; otherwise log
the error and return without calling the optimizer.  `markersOf`
abstracts `media_handler.get_scene_markers`. -/
def find_marker_settings {α : Type} (engine : OptimizeCall → α)
    (markersOf : Nat → List SceneMarker) (sceneIds : List Nat) : FMSRun α :=
  match sceneIds with
  | [sid] =>
      let r := findMarkerSettingsScene engine (markersOf sid)
      ⟨1, false, some r.2⟩
  | _ => ⟨0, true, none⟩

/-! ## Job Executor (`__tag_video`, lines 260-312, and
`__tag_video_with_timing`, lines 241-258)

The media collaborator's per-item state, the pipeline outcome, and a
fault profile saying which media-collaborator calls raise.  A failing
call raises after the effects of the preceding calls are already
applied, so the error value carries the state reached at the failure. -/

/-- The media collaborator's tag/marker state for one item. -/
structure ItemState where
  tags : Finset String
  markers : List (String × List TimeFrame)
  hasTagMe : Bool
  hasError : Bool
  deriving DecidableEq

/-- Which media-collaborator calls of `__tag_video` raise. -/
structure MediaFault where
  clearTagsFails : Bool
  clearMarkersFails : Bool
  getTagIdsFails : Bool
  addTagsFails : Bool
  addMarkersFails : Bool
  removeTagMeFails : Bool
  addErrorSceneFails : Bool
  deriving Repr, DecidableEq

/-- The fault-free media collaborator. -/
def noFault : MediaFault := ⟨false, false, false, false, false, false, false⟩

/-- Lines 291-304: the non-empty-detection branch — clear all existing
tags, clear all markers, resolve tag ids, add the new tags, and (when
marker creation is enabled) add the new markers.  Each call may raise;
a raise keeps the effects already made. -/
def stepClearWrite (cm : Bool) (flt : MediaFault) (res : VideoResult)
    (st : ItemState) : Except ItemState ItemState :=
  if flt.clearTagsFails then .error st else
  let st1 : ItemState := { st with tags := ∅ }
  if flt.clearMarkersFails then .error st1 else
  let st2 : ItemState := { st1 with markers := [] }
  if flt.getTagIdsFails then .error st2 else
  if flt.addTagsFails then .error st2 else
  let st3 : ItemState := { st2 with tags := st2.tags ∪ detectedTags res }
  if cm then
    if flt.addMarkersFails then .error st3 else
    .ok { st3 with markers := st3.markers ++ res.tag_timespans }
  else .ok st3

/-- The body of `__tag_video`'s `try` block (lines 263-307): run the
inference (its raise modelled by `pout = .error`), take the clear-write
branch when the detected union is non-empty, then remove the
`VLM_TagMe` tag in every case. -/
def tagVideoBody (cm : Bool) (flt : MediaFault) (pout : Except Unit VideoResult)
    (st : ItemState) : Except ItemState ItemState :=
  match pout with
  | .error _ => .error st
  | .ok res =>
      let afterWrite :=
        if detectedTags res = ∅ then Except.ok st
        else stepClearWrite cm flt res st
      match afterWrite with
      | .error s => .error s
      | .ok s =>
          if flt.removeTagMeFails then .error s
          else .ok { s with hasTagMe := false }

/-- The result of one `__tag_video` run: the item state it leaves, and
whether an exception escaped the function (possible only when the
`except` handler's own `add_error_scene` call raises). -/
structure TagVideoRun where
  state : ItemState
  raised : Bool
  deriving DecidableEq

/-- Lines 260-312: the whole of `__tag_video`.  Any exception from the
body is caught; the handler logs and calls `add_error_scene`.
`__tag_video_with_timing` only re-raises, so `raised` is also the
outcome the coordinator's `await` sees. -/
def tagVideo (cm : Bool) (flt : MediaFault) (pout : Except Unit VideoResult)
    (st : ItemState) : TagVideoRun :=
  match tagVideoBody cm flt pout st with
  | .ok s => ⟨s, false⟩
  | .error s =>
      if flt.addErrorSceneFails then ⟨s, true⟩
      else ⟨{ s with hasError := true }, false⟩

/-! ## Batch Coordinator (`tag_videos`, lines 120-170) -/

instance : DecidableEq (Except Unit VideoResult) := fun a b =>
  match a, b with
  | .ok x, .ok y =>
      if h : x = y then isTrue (by rw [h])
      else isFalse (by intro hc; cases hc; exact h rfl)
  | .error x, .error y => isTrue (by cases x; cases y; rfl)
  | .ok _, .error _ => isFalse (by intro hc; cases hc)
  | .error _, .ok _ => isFalse (by intro hc; cases hc)

/-- One work item of a batch: its prior media state, its pipeline
outcome, and its media-fault profile. -/
structure Job where
  prior : ItemState
  pout : Except Unit VideoResult
  flt : MediaFault
  deriving DecidableEq

/-- The observable outcome of one `tag_videos` run.  `completed_tasks`
is the source's single counter (incremented on both branches of the
consumption loop, lines 153 and 165); `succBranch` and `exnBranch`
count the loop iterations that took the `try` branch and the `except`
branch respectively; `engineCalls` counts invocations of
`process_video_async`. -/
structure BatchRun where
  completed_tasks : Nat
  succBranch : Nat
  exnBranch : Nat
  engineCalls : Nat
  states : List ItemState

/-- Lines 120-170 of `tag_videos`: early return on an empty scene list
(before any task is created, so zero engine calls); otherwise one task
per scene, each calling the engine once, and a consumption loop that
increments `completed_tasks` whether the awaited task succeeded or
raised. -/
def tag_videos (cm : Bool) (jobs : List Job) : BatchRun :=
  if jobs.isEmpty then ⟨0, 0, 0, 0, []⟩
  else
    let runs := jobs.map fun j => tagVideo cm j.flt j.pout j.prior
    { completed_tasks := runs.length
      succBranch := (runs.filter fun r => !r.raised).length
      exnBranch := (runs.filter fun r => r.raised).length
      engineCalls := jobs.length
      states := runs.map TagVideoRun.state }

/-! ## Progress Aggregator (`progress_cb`, lines 270-274; emissions of
`tag_videos` at lines 135 and 170)

`video_progress` maps every registered job to a fraction, all
pre-registered at 0.0 (lines 132-134); it is modelled as a list of
length `total` indexed by job.  A callback event `(j, p)` is
`progress_cb(p)` of job `j`. -/

/-- Line 272: `video_progress[scene_id] = p / 100.0`. -/
def updateProgress (vp : List ℚ) (j p : Nat) : List ℚ :=
  vp.set j ((p : ℚ) / 100)

/-- Line 273: `sum(video_progress.values()) / total_tasks`. -/
def aggregateProgress (vp : List ℚ) (total : Nat) : ℚ :=
  vp.sum / total

/-- The values handed to `log.progress` by the callbacks, one per
event, from a given aggregator state. -/
def callbackEmissions (total : Nat) : List ℚ → List (Nat × Nat) → List ℚ
  | _, [] => []
  | vp, (j, p) :: rest =>
      let vp1 := updateProgress vp j p
      aggregateProgress vp1 total :: callbackEmissions total vp1 rest

/-- The aggregator state after a whole event sequence. -/
def finalProgressState (total : Nat) (events : List (Nat × Nat)) : List ℚ :=
  events.foldl (fun vp e => updateProgress vp e.1 e.2) (List.replicate total 0)

/-- Everything a batch hands to `log.progress`: the initial
`log.progress(0.0)` (line 135), the callback-driven values, and the
unconditional terminal `log.progress(1.0)` (line 170). -/
def progressTrace (total : Nat) (events : List (Nat × Nat)) : List ℚ :=
  0 :: (callbackEmissions total (List.replicate total 0) events ++ [1])

/-- Each event reports at least the fraction it overwrites (per-job
reports non-decreasing — the upstream behaviour the spec flags as an
assumption). -/
def monoEvents : List ℚ → List (Nat × Nat) → Bool
  | _, [] => true
  | vp, (j, p) :: rest =>
      decide (vp.getD j 0 ≤ (p : ℚ) / 100) && monoEvents (updateProgress vp j p) rest

/-! ## Coordinator timing checkpoints (`tag_videos`, lines 150-162) -/

/-- One iteration's report (lines 156-162): completed count, percent,
elapsed, recomputed average and estimated remaining. -/
structure CheckpointReport where
  completed : Nat
  progress_percent : ℚ
  elapsed_time : ℚ
  avg_time_per_task : ℚ
  estimated_remaining : ℚ
  deriving Repr, DecidableEq

/-- The reports of the consumption loop, given the elapsed time read at
each completion.  Mirrors lines 150-162: increment the counter, then
`avg = elapsed / completed if completed > 0 else 0` and
`remaining = (total - completed) * avg`. -/
def checkpointReports (total : Nat) : Nat → List ℚ → List CheckpointReport
  | _, [] => []
  | done, t :: rest =>
      ⟨done + 1, (((done + 1 : ℕ) : ℚ) / (total : ℚ)) * 100, t,
        if 0 < done + 1 then t / ((done + 1 : ℕ) : ℚ) else 0,
        ((total - (done + 1) : ℕ) : ℚ) *
          (if 0 < done + 1 then t / ((done + 1 : ℕ) : ℚ) else 0)⟩ ::
        checkpointReports total (done + 1) rest

/-! ## Concurrency Gate (`asyncio.Semaphore(concurrent_task_limit)`,
line 74, scoped by `async with semaphore` at line 262)

The cooperative interleaving semantics of the batch: each job is
pending, then runs the `async with` body under a permit, then finishes
— normally (releasing at the end of the scope) or by raising (the
scope releases on the exception path too).  `avail` is the semaphore's
internal counter. -/

inductive JobPhase
  | pending
  | running (steps : Nat)
  | finished (failed : Bool)
  deriving Repr, DecidableEq

def isRunning : JobPhase → Bool
  | .running _ => true
  | _ => false

structure GateState where
  avail : Nat
  jobs : List JobPhase
  deriving Repr, DecidableEq

/-- The jobs currently holding a permit. -/
def holders (s : GateState) : Nat := s.jobs.countP isRunning

/-- Batch start: a fresh `Semaphore(K)` and `n` tasks not yet entered
into the `async with` block. -/
def initGateState (K n : Nat) : GateState := ⟨K, List.replicate n .pending⟩

/-- One scheduler step.  `acquire` admits a pending job only when the
counter is positive (else the job stays suspended); `work` is a body
step; `finish` leaves the scope normally and `abort` leaves it on an
exception — both release the permit, as `async with` does on every
exit path. -/
inductive GateStep : GateState → GateState → Prop
  | acquire (s : GateState) (i steps : Nat) :
      s.jobs[i]? = some .pending → 0 < s.avail →
      GateStep s ⟨s.avail - 1, s.jobs.set i (.running steps)⟩
  | work (s : GateState) (i n : Nat) :
      s.jobs[i]? = some (.running (n + 1)) →
      GateStep s ⟨s.avail, s.jobs.set i (.running n)⟩
  | finish (s : GateState) (i : Nat) :
      s.jobs[i]? = some (.running 0) →
      GateStep s ⟨s.avail + 1, s.jobs.set i (.finished false)⟩
  | abort (s : GateState) (i n : Nat) :
      s.jobs[i]? = some (.running n) →
      GateStep s ⟨s.avail + 1, s.jobs.set i (.finished true)⟩

/-! ## Concrete instances used by counterexamples and witnesses -/

/-- A pipeline result detecting the single tag `Z`. -/
def okScan : VideoResult := ⟨[("actiondetection", ["Z"])], [("Z", [⟨0, 2, 1⟩])]⟩

/-- An item that already carries the tags `X` and `Y` and awaits
processing. -/
def basePrior : ItemState := ⟨{"X", "Y"}, [], true, false⟩

/-- A fault profile where only `add_tags_to_video` raises. -/
def addTagsFault : MediaFault := ⟨false, false, false, true, false, false, false⟩

/-- A job whose pipeline succeeds, under a fault-free media
collaborator. -/
def okJob : Job := ⟨basePrior, .ok okScan, noFault⟩

/-- A job whose pipeline raises, under a fault-free media
collaborator. -/
def failJob : Job := ⟨basePrior, .error (), noFault⟩

/-- Five work items of which exactly the third fails. -/
def jobs5 : List Job := [okJob, okJob, failJob, okJob, okJob]

/-! # Theorems

Helper lemmas first, then one theorem per claim (with a witness or a
counterexample where required). -/

/-! ## Ground-truth map lemmas (Settings Optimizer) -/

theorem buildDesired_lookup_aux (ms : List SceneMarker) :
    ∀ (acc : List (String × TimeFrame)) (tag : String) (tf : TimeFrame),
      dictLookup tag (ms.foldl (fun acc m => dictInsert m.primary_tag_name
          ⟨m.seconds, m.end_seconds.getD (m.seconds + 1), 1⟩ acc) acc) = some tf →
      dictLookup tag acc = some tf ∨
        ∃ m ∈ ms, m.primary_tag_name = tag ∧
          tf = ⟨m.seconds, m.end_seconds.getD (m.seconds + 1), 1⟩ := by
  induction ms with
  | nil => intro acc tag tf h; exact Or.inl h
  | cons m ms ih =>
      intro acc tag tf h
      rw [List.foldl_cons] at h
      rcases ih _ tag tf h with h1 | ⟨m2, hm2, he⟩
      · rw [dictLookup_dictInsert] at h1
        by_cases hk : m.primary_tag_name = tag
        · rw [if_pos hk] at h1
          injection h1 with h1
          exact Or.inr ⟨m, List.mem_cons_self m ms, hk, h1.symm⟩
        · rw [if_neg hk] at h1
          exact Or.inl h1
      · exact Or.inr ⟨m2, List.mem_cons_of_mem m hm2, he⟩

theorem buildDesired_isSome_aux (ms : List SceneMarker) :
    ∀ (acc : List (String × TimeFrame)) (tag : String),
      (dictLookup tag acc).isSome = true →
      (dictLookup tag (ms.foldl (fun acc m => dictInsert m.primary_tag_name
          ⟨m.seconds, m.end_seconds.getD (m.seconds + 1), 1⟩ acc) acc)).isSome = true := by
  induction ms with
  | nil => intro acc tag h; exact h
  | cons m ms ih =>
      intro acc tag h
      rw [List.foldl_cons]
      apply ih
      rw [dictLookup_dictInsert]
      by_cases hk : m.primary_tag_name = tag
      · rw [if_pos hk]; rfl
      · rw [if_neg hk]; exact h

theorem buildDesired_mem_aux (ms : List SceneMarker) :
    ∀ (acc : List (String × TimeFrame)), ∀ m ∈ ms,
      (dictLookup m.primary_tag_name (ms.foldl (fun acc m => dictInsert m.primary_tag_name
          ⟨m.seconds, m.end_seconds.getD (m.seconds + 1), 1⟩ acc) acc)).isSome = true := by
  induction ms with
  | nil => intro _ _ h; cases h
  | cons m0 ms ih =>
      intro acc m hm
      rw [List.foldl_cons]
      rcases List.mem_cons.mp hm with rfl | hm2
      · apply buildDesired_isSome_aux
        rw [dictLookup_dictInsert, if_pos rfl]
        rfl
      · exact ih _ m hm2

/-! ## Claim theorems C4, C6, C7, C8, C9, C10 -/

/-- C4: running the batch coordinator on an empty work-item list
returns immediately with zero completed and zero failed counts (the
single counter, and both loop branches, at zero) and makes no call to
the inference collaborator. -/
theorem tag_videos_empty (cm : Bool) : tag_videos cm [] = ⟨0, 0, 0, 0, []⟩ := rfl

/-- C6: at every completion checkpoint, the reported
average-duration-per-job equals elapsed-so-far divided by
completed-so-far at that checkpoint, and the reported estimated
remaining time equals that average multiplied by (total − completed). -/
theorem checkpoint_timing_spec (total : Nat) (ts : List ℚ) :
    ∀ r ∈ checkpointReports total 0 ts,
      r.avg_time_per_task = r.elapsed_time / (r.completed : ℚ) ∧
      r.estimated_remaining = r.avg_time_per_task * ((total - r.completed : ℕ) : ℚ) := by
  suffices h : ∀ (ts : List ℚ) (done : Nat), ∀ r ∈ checkpointReports total done ts,
      r.avg_time_per_task = r.elapsed_time / (r.completed : ℚ) ∧
      r.estimated_remaining = r.avg_time_per_task * ((total - r.completed : ℕ) : ℚ) by
    exact h ts 0
  intro ts
  induction ts with
  | nil => intro done r hr; simp [checkpointReports] at hr
  | cons t rest ih =>
      intro done r hr
      rcases List.mem_cons.mp hr with rfl | h2
      · constructor
        · show (if 0 < done + 1 then t / ((done + 1 : ℕ) : ℚ) else 0) =
            t / ((done + 1 : ℕ) : ℚ)
          rw [if_pos (Nat.succ_pos done)]
        · exact mul_comm _ _
      · exact ih (done + 1) r h2

/-- Witness for C6 at `total = 4`, elapsed readings `[2, 5]`: the first
checkpoint reports completed 1, elapsed 2, average 2 = 2/1 and
estimated remaining 6 = 2·(4−1). -/
theorem checkpoint_timing_witness :
    (⟨1, 25, 2, 2, 6⟩ : CheckpointReport).avg_time_per_task =
      (⟨1, 25, 2, 2, 6⟩ : CheckpointReport).elapsed_time /
        ((⟨1, 25, 2, 2, 6⟩ : CheckpointReport).completed : ℚ) ∧
    (⟨1, 25, 2, 2, 6⟩ : CheckpointReport).estimated_remaining =
      (⟨1, 25, 2, 2, 6⟩ : CheckpointReport).avg_time_per_task *
        ((4 - (⟨1, 25, 2, 2, 6⟩ : CheckpointReport).completed : ℕ) : ℚ) :=
  checkpoint_timing_spec 4 [2, 5] ⟨1, 25, 2, 2, 6⟩ (by
    norm_num [checkpointReports, CheckpointReport.mk.injEq])

/-- C7: the ground-truth map built by the Settings Optimizer maps each
marker's tag name to a `TimeFrame` whose start is the marker's start
seconds, whose end is the explicit end when supplied and start + 1
otherwise, and whose confidence is exactly 1; every marker's tag name
is present; in particular `TagA: [10, 15]` yields
`TagA ↦ ⟨10, 15, 1⟩`. -/
theorem groundTruthMap_spec (markers : List SceneMarker) :
    (∀ tag tf, dictLookup tag (buildDesiredTimespanData markers) = some tf →
      ∃ m ∈ markers, m.primary_tag_name = tag ∧
        tf = ⟨m.seconds, m.end_seconds.getD (m.seconds + 1), 1⟩) ∧
    (∀ m ∈ markers,
      (dictLookup m.primary_tag_name (buildDesiredTimespanData markers)).isSome = true) ∧
    dictLookup "TagA" (buildDesiredTimespanData [⟨"TagA", 10, some 15⟩]) =
      some ⟨10, 15, 1⟩ := by
  refine ⟨?_, ?_, by decide⟩
  · intro tag tf h
    rcases buildDesired_lookup_aux markers [] tag tf h with h1 | h2
    · simp [dictLookup] at h1
    · exact h2
  · intro m hm
    exact buildDesired_mem_aux markers [] m hm

/-- Witness for C7: the `TagA` lookup hypothesis discharged on the
concrete one-marker list. -/
theorem groundTruthMap_spec_witness :
    ∃ m ∈ [(⟨"TagA", 10, some 15⟩ : SceneMarker)], m.primary_tag_name = "TagA" ∧
      (⟨10, 15, 1⟩ : TimeFrame) =
        ⟨m.seconds, m.end_seconds.getD (m.seconds + 1), 1⟩ :=
  (groundTruthMap_spec [⟨"TagA", 10, some 15⟩]).1 "TagA" ⟨10, 15, 1⟩ (by decide)

/-- C8 counterexample: the optimizer's call to the collaborator passes
an empty `existing_json`, never the item's raw inference output — for
any non-empty raw output the two differ. -/
theorem findMarkerSettings_existingJson_cex :
    (findMarkerSettingsScene (fun c => c) [⟨"TagA", 10, some 15⟩]).1.existing_json = [] ∧
    ([] : List (String × String)) ≠ [("frame_0", "0.9")] :=
  ⟨rfl, by decide⟩

/-- C8 amended: the Settings Optimizer delegates the parameter search
by passing the built ground-truth map together with an empty
`existing_json` object (not the raw inference output, which it never
obtains), and surfaces the collaborator's returned object verbatim; it
performs no search itself. -/
theorem findMarkerSettings_delegation {α : Type} (engine : OptimizeCall → α)
    (markers : List SceneMarker) :
    (findMarkerSettingsScene engine markers).1.existing_json = [] ∧
    (findMarkerSettingsScene engine markers).1.desired_timespan_data =
      buildDesiredTimespanData markers ∧
    (findMarkerSettingsScene engine markers).2 =
      engine (findMarkerSettingsScene engine markers).1 :=
  ⟨rfl, rfl, rfl⟩

/-- C9: when the number of candidate items is not exactly one, no
optimization call is made, the user-facing error is reported, and the
dispatcher still writes the normal "ok" response (the operation is
skipped, not fatal). -/
theorem find_marker_settings_precondition {α : Type} (engine : OptimizeCall → α)
    (markersOf : Nat → List SceneMarker) (sceneIds : List Nat)
    (h : sceneIds.length ≠ 1) :
    find_marker_settings engine markersOf sceneIds = ⟨0, true, none⟩ ∧
    (runDispatch (some "find_marker_settings")).output = some "ok" := by
  refine ⟨?_, rfl⟩
  match sceneIds with
  | [] => rfl
  | [a] => exact absurd rfl h
  | a :: b :: rest => rfl

/-- Witness for C9 at two candidate items. -/
theorem find_marker_settings_precondition_witness :
    find_marker_settings (fun c => c) (fun _ => []) [1, 2] = ⟨0, true, none⟩ ∧
    (runDispatch (some "find_marker_settings")).output = some "ok" :=
  find_marker_settings_precondition (fun c => c) (fun _ => []) [1, 2] (by decide)

/-- C10: a request whose mode selector is absent or unrecognized runs
no batch processing, no optimization and no export, and still writes
the "ok" response. -/
theorem run_unrecognized_mode (mode : Option String)
    (h : mode ≠ some "tag_videos" ∧ mode ≠ some "find_marker_settings" ∧
      mode ≠ some "collect_incorrect_markers") :
    runDispatch mode = ⟨false, false, false, some "ok"⟩ := by
  obtain ⟨h1, h2, h3⟩ := h
  simp [runDispatch, h1, h2, h3]

/-- Witness for C10 at an absent mode and at an unrecognized mode. -/
theorem run_unrecognized_mode_witness :
    runDispatch none = ⟨false, false, false, some "ok"⟩ ∧
    runDispatch (some "export") = ⟨false, false, false, some "ok"⟩ :=
  ⟨run_unrecognized_mode none (by decide),
   run_unrecognized_mode (some "export") (by decide)⟩

/-! ## Job Executor lemmas -/

theorem tagVideo_noFault_error (cm : Bool) (st : ItemState) :
    tagVideo cm noFault (.error ()) st = ⟨{ st with hasError := true }, false⟩ := rfl

theorem tagVideo_noFault_ok (cm : Bool) (res : VideoResult) (st : ItemState) :
    (tagVideo cm noFault (.ok res) st).raised = false ∧
    (tagVideo cm noFault (.ok res) st).state.hasTagMe = false := by
  by_cases h : detectedTags res = ∅ <;>
    cases cm <;>
      simp [tagVideo, tagVideoBody, stepClearWrite, noFault, h]

theorem tagVideo_noRaise (cm : Bool) (j : Job) (hf : j.flt = noFault) :
    (tagVideo cm j.flt j.pout j.prior).raised = false := by
  rw [hf]
  cases hp : j.pout with
  | error e => cases e; simp [tagVideo_noFault_error]
  | ok res => exact (tagVideo_noFault_ok cm res j.prior).1

theorem tag_videos_nonempty (cm : Bool) (jobs : List Job) (h : jobs.isEmpty = false) :
    tag_videos cm jobs =
      { completed_tasks := (jobs.map fun j => tagVideo cm j.flt j.pout j.prior).length
        succBranch := ((jobs.map fun j => tagVideo cm j.flt j.pout j.prior).filter
          fun r => !r.raised).length
        exnBranch := ((jobs.map fun j => tagVideo cm j.flt j.pout j.prior).filter
          fun r => r.raised).length
        engineCalls := jobs.length
        states := (jobs.map fun j => tagVideo cm j.flt j.pout j.prior).map
          TagVideoRun.state } := by
  simp [tag_videos, h]

/-! ## Claim theorems C1 and C3 -/

/-- C1 counterexample: five fault-free jobs of which exactly the
third's pipeline raises.  The coordinator's only counter reaches 5 —
every loop iteration takes the success branch, because the executor
swallows the pipeline exception — so "failed count 1, completed count
4" is false: there is no iteration counted as a failure, and the
completed counter is 5, not 4. -/
theorem batch_failure_count_cex :
    (tag_videos true jobs5).completed_tasks = 5 ∧
    (tag_videos true jobs5).succBranch = 5 ∧
    (tag_videos true jobs5).exnBranch = 0 ∧
    ¬ ((tag_videos true jobs5).succBranch = 4 ∧
       (tag_videos true jobs5).exnBranch = 1) := by
  decide

/-- C1 amended: in a fault-free-media batch with any set of pipeline
failures, no exception escapes an executor, so the coordinator's
single `completed_tasks` counter reaches N, all N iterations take the
success branch and none the failure branch; a pipeline-failed job is
error-tagged with its prior state otherwise untouched, and every
successfully-piped job runs to completion (its pending-analysis tag is
removed). -/
theorem batch_one_failure_amended (cm : Bool) (jobs : List Job)
    (hne : jobs ≠ []) (hflt : ∀ j ∈ jobs, j.flt = noFault) :
    (tag_videos cm jobs).completed_tasks = jobs.length ∧
    (tag_videos cm jobs).succBranch = jobs.length ∧
    (tag_videos cm jobs).exnBranch = 0 ∧
    (tag_videos cm jobs).engineCalls = jobs.length ∧
    (∀ (i : ℕ) (j : Job), jobs[i]? = some j → j.pout = .error () →
      (tag_videos cm jobs).states[i]? = some { j.prior with hasError := true }) ∧
    (∀ (i : ℕ) (j : Job) (res : VideoResult), jobs[i]? = some j → j.pout = .ok res →
      ∃ st : ItemState,
        (tag_videos cm jobs).states[i]? = some st ∧ st.hasTagMe = false) := by
  have hie : jobs.isEmpty = false := by
    cases jobs with
    | nil => exact absurd rfl hne
    | cons a tl => exact List.isEmpty_cons
  have hraise : ∀ r ∈ jobs.map (fun j => tagVideo cm j.flt j.pout j.prior),
      r.raised = false := by
    intro r hr
    rcases List.mem_map.mp hr with ⟨j, hj, rfl⟩
    exact tagVideo_noRaise cm j (hflt j hj)
  have hsucc : List.filter (fun r => !r.raised)
      (jobs.map fun j => tagVideo cm j.flt j.pout j.prior) =
      jobs.map fun j => tagVideo cm j.flt j.pout j.prior :=
    List.filter_eq_self.mpr fun r hr => by simp [hraise r hr]
  have hexn : List.filter (fun r => r.raised)
      (jobs.map fun j => tagVideo cm j.flt j.pout j.prior) = [] :=
    List.filter_eq_nil_iff.mpr fun r hr => by simp [hraise r hr]
  rw [tag_videos_nonempty cm jobs hie]
  refine ⟨by simp, ?_, ?_, rfl, ?_, ?_⟩
  · simp [hsucc]
  · simp [hexn]
  · intro i j hj hp
    have hmem : j ∈ jobs := List.getElem?_mem hj
    have hf : j.flt = noFault := hflt j hmem
    rw [List.getElem?_map, List.getElem?_map, hj]
    simp only [Option.map_some']
    rw [hf, hp, tagVideo_noFault_error]
  · intro i j res hj hp
    have hmem : j ∈ jobs := List.getElem?_mem hj
    have hf : j.flt = noFault := hflt j hmem
    rw [List.getElem?_map, List.getElem?_map, hj]
    simp only [Option.map_some']
    rw [hf, hp]
    exact ⟨_, rfl, (tagVideo_noFault_ok cm res j.prior).2⟩

/-- Witness for C1 amended, at the five-job batch with the third job
failing: the counter reaches 5 and job 3 ends error-tagged with its
prior state otherwise intact. -/
theorem batch_one_failure_witness :
    (tag_videos true jobs5).completed_tasks = jobs5.length ∧
    (tag_videos true jobs5).states[2]? = some { basePrior with hasError := true } :=
  ⟨(batch_one_failure_amended true jobs5 (by decide) (by decide)).1,
   (batch_one_failure_amended true jobs5 (by decide) (by decide)).2.2.2.2.1 2 failJob
     (by decide) rfl⟩

/-- C3 counterexample: an item tagged `{X, Y}` is re-tagged with
detection `{Z}`, but `add_tags_to_video` raises after the clears
succeeded.  The exception is swallowed and the error tag applied, yet
the final tag set is neither the prior `{X, Y}` nor the new `{Z}`: the
clears completed while the write did not, so clear-then-write is not
atomic from the caller's perspective. -/
theorem tagVideo_atomicity_cex :
    (tagVideo true addTagsFault (.ok okScan) basePrior).raised = false ∧
    (tagVideo true addTagsFault (.ok okScan) basePrior).state.hasError = true ∧
    basePrior.tags ≠ ∅ ∧ detectedTags okScan ≠ ∅ ∧
    ¬ ((tagVideo true addTagsFault (.ok okScan) basePrior).state.tags = basePrior.tags ∨
       (tagVideo true addTagsFault (.ok okScan) basePrior).state.tags =
         detectedTags okScan) := by
  decide

/-- C3 amended: with a working `add_error_scene`, no exception
propagates past `__tag_video`; any body failure leaves the item
error-tagged at the state the failing call reached; a failure at the
inference step (before any write) leaves the prior tag/marker state
unchanged; and on the fault-free success path with a non-empty
detection the final tag set is exactly the detection — never a union
with the old tags.  (Atomicity of clear-then-write does not hold in
general: see the counterexample.) -/
theorem tagVideo_isolation_amended (cm : Bool) (flt : MediaFault)
    (pout : Except Unit VideoResult) (st : ItemState)
    (hh : flt.addErrorSceneFails = false) :
    (tagVideo cm flt pout st).raised = false ∧
    (∀ s, tagVideoBody cm flt pout st = .error s →
      tagVideo cm flt pout st = ⟨{ s with hasError := true }, false⟩) ∧
    (pout = .error () →
      tagVideo cm flt pout st = ⟨{ st with hasError := true }, false⟩) ∧
    (∀ res, pout = .ok res → flt = noFault → detectedTags res ≠ ∅ →
      (tagVideo cm flt pout st).state.tags = detectedTags res) := by
  refine ⟨?_, ?_, ?_, ?_⟩
  · cases hb : tagVideoBody cm flt pout st with
    | ok s => simp [tagVideo, hb]
    | error s => simp [tagVideo, hb, hh]
  · intro s hs
    simp [tagVideo, hs, hh]
  · intro hp
    subst hp
    simp [tagVideo, tagVideoBody, hh]
  · intro res hp hf hne
    subst hp; subst hf
    cases cm <;> simp [tagVideo, tagVideoBody, stepClearWrite, noFault, hne]

/-- Witness for C3 amended: the inference-failure case and the
fault-free re-tagging case at concrete inputs. -/
theorem tagVideo_isolation_witness :
    (tagVideo true noFault (.error ()) basePrior).raised = false ∧
    tagVideo true noFault (.error ()) basePrior =
      ⟨{ basePrior with hasError := true }, false⟩ ∧
    (tagVideo true noFault (.ok okScan) basePrior).state.tags = detectedTags okScan :=
  ⟨(tagVideo_isolation_amended true noFault (.error ()) basePrior rfl).1,
   (tagVideo_isolation_amended true noFault (.error ()) basePrior rfl).2.2.1 rfl,
   (tagVideo_isolation_amended true noFault (.ok okScan) basePrior rfl).2.2.2 okScan rfl rfl
     (by decide)⟩

/-! ## Progress Aggregator lemmas -/

theorem length_updateProgress (vp : List ℚ) (j p : Nat) :
    (updateProgress vp j p).length = vp.length := List.length_set vp j _

theorem mem_updateProgress (vp : List ℚ) (j p : Nat) (hp : p ≤ 100)
    (hb : ∀ q ∈ vp, 0 ≤ q ∧ q ≤ 1) :
    ∀ q ∈ updateProgress vp j p, 0 ≤ q ∧ q ≤ 1 := by
  intro q hq
  rcases List.mem_or_eq_of_mem_set hq with h | h
  · exact hb q h
  · subst h
    constructor
    · positivity
    · rw [div_le_one (by norm_num)]
      exact_mod_cast hp

theorem aggregate_nonneg_le_one (vp : List ℚ) (total : Nat)
    (hlen : vp.length = total) (hb : ∀ q ∈ vp, 0 ≤ q ∧ q ≤ 1) :
    0 ≤ aggregateProgress vp total ∧ aggregateProgress vp total ≤ 1 := by
  have hs0 : 0 ≤ vp.sum := List.sum_nonneg fun x hx => (hb x hx).1
  have hsl : vp.sum ≤ (total : ℚ) := by
    have h := List.sum_le_card_nsmul vp 1 fun x hx => (hb x hx).2
    rw [nsmul_eq_mul, mul_one, hlen] at h
    exact h
  refine ⟨div_nonneg hs0 (Nat.cast_nonneg total), ?_⟩
  rcases Nat.eq_zero_or_pos total with h0 | hpos
  · subst h0
    simp [aggregateProgress]
  · have ht : (0 : ℚ) < total := by exact_mod_cast hpos
    rw [aggregateProgress, div_le_one ht]
    exact hsl

theorem sum_le_sum_set (vp : List ℚ) :
    ∀ (j : Nat) (x : ℚ), vp.getD j 0 ≤ x → vp.sum ≤ (vp.set j x).sum := by
  induction vp with
  | nil => intro j x _; simp
  | cons a t ih =>
      intro j x hx
      cases j with
      | zero =>
          rw [List.getD_cons_zero] at hx
          simp only [List.set, List.sum_cons]
          linarith
      | succ n =>
          rw [List.getD_cons_succ] at hx
          have := ih n x hx
          simp only [List.set, List.sum_cons]
          linarith

theorem aggregate_mono (vp : List ℚ) (total j p : Nat)
    (h : vp.getD j 0 ≤ (p : ℚ) / 100) :
    aggregateProgress vp total ≤ aggregateProgress (updateProgress vp j p) total := by
  rcases Nat.eq_zero_or_pos total with h0 | hpos
  · subst h0
    simp [aggregateProgress]
  · have ht : (0 : ℚ) < total := by exact_mod_cast hpos
    rw [aggregateProgress, aggregateProgress, div_le_div_iff_of_pos_right ht]
    exact sum_le_sum_set vp j _ h

theorem emissions_chain (total : Nat) :
    ∀ (events : List (Nat × Nat)) (vp : List ℚ),
      monoEvents vp events = true →
      List.Chain' (· ≤ ·)
        (aggregateProgress vp total :: callbackEmissions total vp events) := by
  intro events
  induction events with
  | nil => intro vp _; exact List.chain'_singleton _
  | cons e rest ih =>
      intro vp hm
      obtain ⟨j, p⟩ := e
      rw [monoEvents, Bool.and_eq_true, decide_eq_true_eq] at hm
      obtain ⟨hle, hrest⟩ := hm
      rw [callbackEmissions, List.chain'_cons]
      exact ⟨aggregate_mono vp total j p hle, ih _ hrest⟩

theorem emissions_bound (total : Nat) :
    ∀ (events : List (Nat × Nat)) (vp : List ℚ),
      vp.length = total → (∀ q ∈ vp, 0 ≤ q ∧ q ≤ 1) →
      (∀ e ∈ events, e.2 ≤ 100) →
      ∀ q ∈ callbackEmissions total vp events, 0 ≤ q ∧ q ≤ 1 := by
  intro events
  induction events with
  | nil => intro vp _ _ _ q hq; simp [callbackEmissions] at hq
  | cons e rest ih =>
      intro vp hlen hb hev q hq
      obtain ⟨j, p⟩ := e
      rw [callbackEmissions] at hq
      have hb1 := mem_updateProgress vp j p (hev (j, p) (List.mem_cons_self _ _)) hb
      have hlen1 : (updateProgress vp j p).length = total := by
        rw [length_updateProgress]; exact hlen
      rcases List.mem_cons.mp hq with rfl | hq2
      · exact aggregate_nonneg_le_one _ total hlen1 hb1
      · exact ih _ hlen1 hb1 (fun e he => hev e (List.mem_cons_of_mem _ he)) q hq2

theorem foldl_update_length (events : List (Nat × Nat)) :
    ∀ vp : List ℚ,
      (events.foldl (fun vp e => updateProgress vp e.1 e.2) vp).length = vp.length := by
  induction events with
  | nil => intro vp; rfl
  | cons e rest ih =>
      intro vp
      rw [List.foldl_cons, ih, length_updateProgress]

theorem foldl_update_bounded (events : List (Nat × Nat)) :
    ∀ vp : List ℚ, (∀ q ∈ vp, 0 ≤ q ∧ q ≤ 1) → (∀ e ∈ events, e.2 ≤ 100) →
      ∀ q ∈ events.foldl (fun vp e => updateProgress vp e.1 e.2) vp,
        0 ≤ q ∧ q ≤ 1 := by
  induction events with
  | nil => intro vp hb _ q hq; exact hb q hq
  | cons e rest ih =>
      intro vp hb hev q hq
      rw [List.foldl_cons] at hq
      exact ih _
        (mem_updateProgress vp e.1 e.2 (hev e (List.mem_cons_self _ _)) hb)
        (fun e2 he2 => hev e2 (List.mem_cons_of_mem _ he2)) q hq

theorem sum_eq_length_iff_all_one (l : List ℚ) :
    (∀ q ∈ l, q ≤ 1) → (l.sum = (l.length : ℚ) ↔ ∀ q ∈ l, q = 1) := by
  induction l with
  | nil => intro _; simp
  | cons a t ih =>
      intro hb
      have hta : a ≤ 1 := hb a (List.mem_cons_self _ _)
      have htb : ∀ q ∈ t, q ≤ 1 := fun q hq => hb q (List.mem_cons_of_mem _ hq)
      have hts : t.sum ≤ (t.length : ℚ) := by
        have h := List.sum_le_card_nsmul t 1 htb
        rwa [nsmul_eq_mul, mul_one] at h
      rw [List.sum_cons, List.length_cons, Nat.cast_add, Nat.cast_one]
      constructor
      · intro h
        have ha : a = 1 := by linarith
        have hsum : t.sum = (t.length : ℚ) := by linarith
        intro q hq
        rcases List.mem_cons.mp hq with rfl | hq2
        · exact ha
        · exact (ih htb).mp hsum q hq2
      · intro h
        have ha : a = 1 := h a (List.mem_cons_self _ _)
        have hall : ∀ q ∈ t, q = 1 := fun q hq => h q (List.mem_cons_of_mem _ hq)
        rw [ha, (ih htb).mpr hall]
        ring

/-! ## Claim theorem C2 -/

/-- C2 counterexample: two registered jobs, job 0 reports 80 then 30.
The emitted trace is `[0, 2/5, 3/20, 1]`: it is not monotonically
non-decreasing (the aggregate drops from 2/5 to 3/20 because
`progress_cb` is last-write-wins), and the terminal emitted 1.0 is
hard-coded — the recomputed sum-over-total aggregate at batch end is
3/20 ≠ 1 even though every job has terminated. -/
theorem aggregate_progress_cex :
    ¬ List.Chain' (· ≤ ·) (progressTrace 2 [(0, 80), (0, 30)]) ∧
    (progressTrace 2 [(0, 80), (0, 30)]).getLast? = some 1 ∧
    aggregateProgress (finalProgressState 2 [(0, 80), (0, 30)]) 2 ≠ 1 := by
  refine ⟨?_, ?_, ?_⟩
  · have htr : progressTrace 2 [(0, 80), (0, 30)] = [0, 2/5, 3/20, 1] := by
      norm_num [progressTrace, callbackEmissions, updateProgress, aggregateProgress,
        List.replicate, List.set]
    rw [htr]
    intro hch
    obtain ⟨-, hch2⟩ := List.chain'_cons.mp hch
    obtain ⟨hle, -⟩ := List.chain'_cons.mp hch2
    norm_num at hle
  · rw [progressTrace, ← List.cons_append]
    exact List.getLast?_concat _
  · norm_num [finalProgressState, aggregateProgress, updateProgress,
      List.replicate, List.set]

/-- C2 amended: each callback-driven emission is the recomputed
`sum / total` of the per-job fractions; with percents in 0..100 every
emitted value lies in [0, 1]; the trace is monotonically non-decreasing
provided each job's successive reports are non-decreasing (the code is
last-write-wins and does not enforce this); the terminal emission at
full drain is the constant 1.0; and the recomputed aggregate equals 1
exactly when every registered fraction equals 1, i.e. when every job
has reported 100%. -/
theorem aggregate_progress_amended (total : Nat) (events : List (Nat × Nat))
    (hev : ∀ e ∈ events, e.2 ≤ 100)
    (hm : monoEvents (List.replicate total 0) events = true) :
    (∀ vp : List ℚ, aggregateProgress vp total = vp.sum / (total : ℚ)) ∧
    List.Chain' (· ≤ ·) (progressTrace total events) ∧
    (∀ q ∈ progressTrace total events, 0 ≤ q ∧ q ≤ 1) ∧
    (progressTrace total events).getLast? = some 1 ∧
    (0 < total →
      (aggregateProgress (finalProgressState total events) total = 1 ↔
        ∀ q ∈ finalProgressState total events, q = 1)) := by
  have hrep_len : (List.replicate total (0 : ℚ)).length = total :=
    List.length_replicate total 0
  have hrep_b : ∀ q ∈ List.replicate total (0 : ℚ), 0 ≤ q ∧ q ≤ 1 := by
    intro q hq
    rw [List.eq_of_mem_replicate hq]
    norm_num
  have hagg0 : aggregateProgress (List.replicate total 0) total = 0 := by
    simp [aggregateProgress, List.sum_replicate]
  have hbound := emissions_bound total events (List.replicate total 0)
    hrep_len hrep_b hev
  refine ⟨fun vp => rfl, ?_, ?_, ?_, ?_⟩
  · show List.Chain' (· ≤ ·)
      ((0 :: callbackEmissions total (List.replicate total 0) events) ++ [1])
    rw [List.chain'_append]
    refine ⟨?_, List.chain'_singleton 1, ?_⟩
    · have h := emissions_chain total events (List.replicate total 0) hm
      rwa [hagg0] at h
    · intro x hx y hy
      simp only [List.head?_cons, Option.mem_def, Option.some_inj] at hy
      subst hy
      have hx2 : x ∈ 0 :: callbackEmissions total (List.replicate total 0) events :=
        List.mem_of_mem_getLast? (Option.mem_def.mpr hx)
      rcases List.mem_cons.mp hx2 with rfl | hx3
      · norm_num
      · exact (hbound x hx3).2
  · intro q hq
    rw [progressTrace] at hq
    rcases List.mem_cons.mp hq with rfl | hq2
    · norm_num
    · rcases List.mem_append.mp hq2 with hq3 | hq4
      · exact hbound q hq3
      · rw [List.mem_singleton.mp hq4]
        norm_num
  · rw [progressTrace, ← List.cons_append]
    exact List.getLast?_concat _
  · intro hpos
    have hlen : (finalProgressState total events).length = total := by
      rw [finalProgressState, foldl_update_length, List.length_replicate]
    have hbfin : ∀ q ∈ finalProgressState total events, 0 ≤ q ∧ q ≤ 1 :=
      foldl_update_bounded events (List.replicate total 0) hrep_b hev
    have hne : ((total : ℚ)) ≠ 0 := Nat.cast_ne_zero.mpr (Nat.pos_iff_ne_zero.mp hpos)
    rw [aggregateProgress, div_eq_one_iff_eq hne]
    have h := sum_eq_length_iff_all_one (finalProgressState total events)
      fun q hq => (hbfin q hq).2
    rwa [hlen] at h

/-- Witness for C2 amended: two jobs with monotone reports
(0 ↦ 50, 1 ↦ 100, 0 ↦ 100) give a non-decreasing trace ending at 1. -/
theorem aggregate_progress_amended_witness :
    List.Chain' (· ≤ ·) (progressTrace 2 [(0, 50), (1, 100), (0, 100)]) ∧
    (progressTrace 2 [(0, 50), (1, 100), (0, 100)]).getLast? = some 1 :=
  ⟨(aggregate_progress_amended 2 [(0, 50), (1, 100), (0, 100)] (by decide)
      (by norm_num [monoEvents, updateProgress, List.replicate, List.set])).2.1,
   (aggregate_progress_amended 2 [(0, 50), (1, 100), (0, 100)] (by decide)
      (by norm_num [monoEvents, updateProgress, List.replicate, List.set])).2.2.2.1⟩

/-! ## Concurrency Gate lemmas -/

theorem countP_set_add (p : JobPhase → Bool) (l : List JobPhase) :
    ∀ (i : Nat) (a b : JobPhase), l[i]? = some b →
      (l.set i a).countP p + (if p b then 1 else 0)
        = l.countP p + (if p a then 1 else 0) := by
  induction l with
  | nil => intro i a b h; simp at h
  | cons hd tl ih =>
      intro i a b h
      cases i with
      | zero =>
          rw [List.getElem?_cons_zero] at h
          injection h with h
          subst h
          simp only [List.set, List.countP_cons]
          by_cases h1 : p hd <;> by_cases h2 : p a <;> simp [h1, h2]
      | succ n =>
          rw [List.getElem?_cons_succ] at h
          have hih := ih n a b h
          simp only [List.set, List.countP_cons]
          omega

theorem holders_init (K n : Nat) : holders (initGateState K n) = 0 := by
  rw [holders, initGateState, List.countP_eq_zero]
  intro a ha
  rw [List.eq_of_mem_replicate ha]
  simp [isRunning]

theorem gateStep_inv {K : Nat} {s t : GateState} (hst : GateStep s t)
    (hinv : holders s + s.avail = K) : holders t + t.avail = K := by
  cases hst with
  | acquire i steps hget hpos =>
      have h := countP_set_add isRunning s.jobs i (.running steps) .pending hget
      simp [isRunning] at h
      simp only [holders] at hinv ⊢
      omega
  | work i n hget =>
      have h := countP_set_add isRunning s.jobs i (.running n) (.running (n + 1)) hget
      simp [isRunning] at h
      simp only [holders] at hinv ⊢
      omega
  | finish i hget =>
      have h := countP_set_add isRunning s.jobs i (.finished false) (.running 0) hget
      simp [isRunning] at h
      simp only [holders] at hinv ⊢
      omega
  | abort i n hget =>
      have h := countP_set_add isRunning s.jobs i (.finished true) (.running n) hget
      simp [isRunning] at h
      simp only [holders] at hinv ⊢
      omega

theorem gate_inv_reachable {K n : Nat} {s : GateState}
    (h : Relation.ReflTransGen GateStep (initGateState K n) s) :
    holders s + s.avail = K := by
  induction h with
  | refl => rw [holders_init]; simp [initGateState]
  | tail _hst hstep ih => exact gateStep_inv hstep ih

theorem gateStep_release {t u : GateState} (hst : GateStep t u) (i : Nat)
    (ph ph2 : JobPhase) (hs : t.jobs[i]? = some ph) (ht : u.jobs[i]? = some ph2)
    (hr : isRunning ph = true) (hr2 : isRunning ph2 = false) :
    u.avail = t.avail + 1 := by
  cases hst with
  | acquire i0 steps hget hpos =>
      exfalso
      by_cases hii : i0 = i
      · subst hii
        rw [hget] at hs
        injection hs with hs
        rw [← hs] at hr
        simp [isRunning] at hr
      · rw [List.getElem?_set_ne hii] at ht
        rw [hs] at ht
        injection ht with ht
        rw [ht] at hr
        rw [hr2] at hr
        exact Bool.false_ne_true hr
  | work i0 n hget =>
      exfalso
      by_cases hii : i0 = i
      · subst hii
        have hlt : i0 < t.jobs.length := by
          rcases List.getElem?_eq_some.mp hget with ⟨hl, _⟩
          exact hl
        rw [List.getElem?_set_self (by simpa using hlt)] at ht
        injection ht with ht
        rw [← ht] at hr2
        simp [isRunning] at hr2
      · rw [List.getElem?_set_ne hii] at ht
        rw [hs] at ht
        injection ht with ht
        rw [ht] at hr
        rw [hr2] at hr
        exact Bool.false_ne_true hr
  | finish i0 hget => rfl
  | abort i0 n hget => rfl

/-! ## Claim theorem C5 -/

/-- C5: in every state reachable from batch start, the number of jobs
holding an inference-call permit never exceeds the gate size K, and
`holders + avail = K` is conserved (no permit leaks); moreover any step
that takes a job out of the permit-holding phase — normal finish or
exception — returns exactly one permit to the semaphore. -/
theorem gate_bound (K n : Nat) (s : GateState)
    (h : Relation.ReflTransGen GateStep (initGateState K n) s) :
    holders s ≤ K ∧ holders s + s.avail = K ∧
    (∀ t u : GateState, GateStep t u → ∀ (i : Nat) (ph ph2 : JobPhase),
      t.jobs[i]? = some ph → u.jobs[i]? = some ph2 →
      isRunning ph = true → isRunning ph2 = false → u.avail = t.avail + 1) := by
  have hinv := gate_inv_reachable h
  exact ⟨by omega, hinv,
    fun t u hst i ph ph2 hs ht hr hr2 => gateStep_release hst i ph ph2 hs ht hr hr2⟩

/-- Witness for C5: with gate size 1 and two jobs, after job 0 acquires
the permit, exactly one job holds it — within the bound. -/
theorem gate_bound_witness :
    holders ⟨0, [JobPhase.running 1, JobPhase.pending]⟩ ≤ 1 :=
  (gate_bound 1 2 ⟨0, [JobPhase.running 1, JobPhase.pending]⟩
    (Relation.ReflTransGen.single
      (GateStep.acquire (initGateState 1 2) 0 1 rfl Nat.one_pos))).1

end HavenVLM
